import Mathlib

/-!
Verification of the morse-torch timing and playback core.

Shallow embedding of the Morse converter (`src/services/MorseConverterService.ts`),
the audio playback engine (`AudioService`), and the flashlight transmission
scheduler (`src/services/FlashlightService.ts`).

Modelling conventions:
* JavaScript strings are modelled as `List Char` (one element per UTF-16 unit);
  the `String` wrappers at the API boundary convert via `String.data`.
* Millisecond durations produced by the timing compiler are natural numbers
  (the compiler only ever multiplies the integer base unit by 1, 3 or 7).
  Speed-adjusted durations (`duration / speed`) live in `ℚ`, mirroring the
  exact value of the JavaScript division for the decimal speeds involved.
* Timer handles (`setInterval`, `setTimeout`) are modelled by a `TimerWorld`
  that allocates fresh numeric handles and tracks which handles are live;
  `clearInterval` and `clearTimeout` remove a handle from the live set.
* Callback invocation and wall-clock waiting are outside the model; every
  function models the synchronous effects of the corresponding method.
-/

/-! ### Data model (`src/types/morse.ts`) -/

/-- The five timing event kinds of `MorseTiming.type`. -/
inductive MorseType where
  | dit
  | dah
  | symbolGap
  | letterGap
  | wordGap
deriving DecidableEq

/-- `MorseTiming` from `src/types/morse.ts`: an event kind with a duration
in milliseconds. -/
structure MorseTiming where
  type : MorseType
  duration : ℕ
deriving DecidableEq

/-- A signal-on event: `timing.type === 'dit' || timing.type === 'dah'` in the
source (the test used by `playSequence`, `generateAudioFile` and
`executeTimingSequence`). -/
def MorseTiming.isSignal (t : MorseTiming) : Bool :=
  match t.type with
  | .dit => true
  | .dah => true
  | _ => false

/-- A signal-off (gap) event: one of the three gap kinds. -/
def MorseTiming.isGap (t : MorseTiming) : Bool :=
  match t.type with
  | .symbolGap => true
  | .letterGap => true
  | .wordGap => true
  | _ => false

/-- The fixed unit ratio of each event kind: dit=1u, dah=3u, symbol gap=1u,
letter gap=3u, word gap=7u (the `TimingConfig` computed in `morseToTiming`). -/
def unitScale : MorseType → ℕ
  | .dit => 1
  | .dah => 3
  | .symbolGap => 1
  | .letterGap => 3
  | .wordGap => 7

/-! ### Symbol Mapper (`MorseConverterService.textToMorse`) -/

/-- The `MORSE_CODE_MAP` lookup table, verbatim from the source. The
apostrophe and double-quote keys are written with `Char.ofNat` (codes 39
and 34). -/
def MORSE_CODE_MAP : List (Char × String) :=
  [('A', ".-"), ('B', "-..."), ('C', "-.-."), ('D', "-.."), ('E', "."),
   ('F', "..-."), ('G', "--."), ('H', "...."), ('I', ".."), ('J', ".---"),
   ('K', "-.-"), ('L', ".-.."), ('M', "--"), ('N', "-."), ('O', "---"),
   ('P', ".--."), ('Q', "--.-"), ('R', ".-."), ('S', "..."), ('T', "-"),
   ('U', "..-"), ('V', "...-"), ('W', ".--"), ('X', "-..-"), ('Y', "-.--"),
   ('Z', "--.."),
   ('0', "-----"), ('1', ".----"), ('2', "..---"), ('3', "...--"),
   ('4', "....-"), ('5', "....."), ('6', "-...."), ('7', "--..."),
   ('8', "---.."), ('9', "----."),
   ('.', ".-.-.-"), (',', "--..--"), ('?', "..--.."), (Char.ofNat 39, ".----."),
   ('!', "-.-.--"), ('/', "-..-."), ('(', "-.--."), (')', "-.--.-"),
   ('&', ".-..."), (':', "---..."), (';', "-.-.-."), ('=', "-...-"),
   ('+', ".-.-."), ('-', "-....-"), ('_', "..--.-"), (Char.ofNat 34, ".-..-."),
   ('$', "...-..-"), ('@', ".--.-."),
   (' ', "/")]

/-- `MORSE_CODE_MAP[char] || ''`: the looked-up code as a character list, or
`[]` for an unsupported character. -/
def lookupMorse (c : Char) : List Char :=
  ((MORSE_CODE_MAP.lookup c).getD "").data

/-- JavaScript `text.split(' ')`: split on every single space, keeping empty
pieces (`''.split(' ') == ['']`). -/
def splitOnSpace : List Char → List (List Char)
  | [] => [[]]
  | c :: rest =>
      let r := splitOnSpace rest
      if c = ' ' then [] :: r
      else (c :: r.headD []) :: r.tail

/-- JavaScript `parts.join(sep)`. -/
def joinWith (sep : List Char) : List (List Char) → List Char
  | [] => []
  | [w] => w
  | w :: w2 :: ws => w ++ sep ++ joinWith sep (w2 :: ws)

/-- `textToMorse` on character lists. The guard
`!text || text.trim().length === 0` holds exactly when every character is
whitespace. Each word maps to the space-joined codes of its supported
characters; empty results are filtered out; words join with `' / '`. -/
def textToMorseL (text : List Char) : List Char :=
  if text.all Char.isWhitespace then []
  else
    let upperText := text.map Char.toUpper
    let words := splitOnSpace upperText
    let morseWords :=
      (words.map (fun word =>
        joinWith [' '] ((word.map lookupMorse).filter (fun m => 0 < m.length)))).filter
        (fun w => 0 < w.length)
    joinWith [' ', '/', ' '] morseWords

/-- `MorseConverterService.textToMorse`. -/
def textToMorse (text : String) : String :=
  String.mk (textToMorseL text.data)

/-! ### Timing Compiler (`MorseConverterService.morseToTiming`)

The source scans the string with an index `i`, reading `morse[i]`,
`morse[i+1]` (lookahead) and `morse[i-1]` (lookback). The loop state is the
position `i`; we embed it as structural recursion on the suffix starting at
`i`, carrying the previous character: `morse[i+1]` is the head of the tail
and `morse[i-1]` is the carried `prev`. -/

/-- The lookahead test guarding a trailing symbol gap:
`i + 1 < morse.length && morse[i+1] !== ' ' && morse[i+1] !== '/'`. -/
def nextNeedsSymbolGap : Option Char → Bool
  | none => false
  | some d => d ≠ ' ' && d ≠ '/'

/-- The body of one loop iteration of `morseToTiming`: the events emitted for
the character `c` when the next character is `next` and the previous one is
`prev` (`u` is the base time unit). -/
def emitStep (u : ℕ) (c : Char) (prev next : Option Char) : List MorseTiming :=
  if c = '.' then
    { type := .dit, duration := u } ::
      (if nextNeedsSymbolGap next then [{ type := .symbolGap, duration := u }] else [])
  else if c = '-' then
    { type := .dah, duration := u * 3 } ::
      (if nextNeedsSymbolGap next then [{ type := .symbolGap, duration := u }] else [])
  else if c = ' ' then
    if next = some '/' then []
    else if prev = some '/' then []
    else [{ type := .letterGap, duration := u * 3 }]
  else if c = '/' then
    [{ type := .wordGap, duration := u * 7 }]
  else []

/-- The scanning loop of `morseToTiming`, one `emitStep` per character. -/
def morseToTimingAux (u : ℕ) : Option Char → List Char → List MorseTiming
  | _, [] => []
  | prev, c :: rest => emitStep u c prev rest.head? ++ morseToTimingAux u (some c) rest

/-- `morseToTiming` on character lists: the empty/whitespace guard, then the
scan starting with no previous character. -/
def morseToTimingL (morse : List Char) (timeUnit : ℕ) : List MorseTiming :=
  if morse.all Char.isWhitespace then []
  else morseToTimingAux timeUnit none morse

/-- `MorseConverterService.morseToTiming` (the source defaults `timeUnit`
to 120; callers here always pass it explicitly). -/
def morseToTiming (morse : String) (timeUnit : ℕ) : List MorseTiming :=
  morseToTimingL morse.data timeUnit

/-! ### The Symbol Mapper output format

Per the specification, the compiler input contract is exactly the Symbol
Mapper output format: words are nonempty runs of letters joined by single
spaces, letters are nonempty runs of `'.'`/`'-'`, words join with `' / '`. -/

/-- A Morse symbol character (dit or dah). -/
def isSymbolChar (c : Char) : Bool :=
  c = '.' || c = '-'

/-- A well-formed letter: a nonempty run of symbol characters. -/
def wfLetter (l : List Char) : Bool :=
  !l.isEmpty && l.all isSymbolChar

/-- A well-formed word: a nonempty list of well-formed letters. -/
def wfWord (w : List (List Char)) : Bool :=
  !w.isEmpty && w.all wfLetter

/-- A well-formed message: a list of well-formed words. -/
def wfMessage (ws : List (List (List Char))) : Bool :=
  ws.all wfWord

/-- Render a word: its letters joined by single spaces. -/
def renderWord : List (List Char) → List Char
  | [] => []
  | [l] => l
  | l :: l2 :: ls => l ++ ' ' :: renderWord (l2 :: ls)

/-- Render a message: its words joined by the literal `' / '`. -/
def renderMessage : List (List (List Char)) → List Char
  | [] => []
  | [w] => renderWord w
  | w :: w2 :: ws => renderWord w ++ ' ' :: '/' :: ' ' :: renderMessage (w2 :: ws)

/-- The timing sequence the format says a letter compiles to: its symbols
separated by single symbol gaps. -/
def compileLetter (u : ℕ) : List Char → List MorseTiming
  | [] => []
  | [c] => [if c = '.' then { type := .dit, duration := u }
            else { type := .dah, duration := u * 3 }]
  | c :: c2 :: rest =>
      (if c = '.' then { type := .dit, duration := u }
       else { type := .dah, duration := u * 3 }) ::
      { type := .symbolGap, duration := u } :: compileLetter u (c2 :: rest)

/-- A word compiles to its letters separated by single letter gaps. -/
def compileWord (u : ℕ) : List (List Char) → List MorseTiming
  | [] => []
  | [l] => compileLetter u l
  | l :: l2 :: ls =>
      compileLetter u l ++ { type := .letterGap, duration := u * 3 } :: compileWord u (l2 :: ls)

/-- A message compiles to its words separated by single word gaps. -/
def compileMessage (u : ℕ) : List (List (List Char)) → List MorseTiming
  | [] => []
  | [w] => compileWord u w
  | w :: w2 :: ws =>
      compileWord u w ++ { type := .wordGap, duration := u * 7 } :: compileMessage u (w2 :: ws)

/-- `altFrom b out`: the events of `out` alternate between signal-on
(`b = true`) and gap (`b = false`), starting at `b`. -/
def altFrom : Bool → List MorseTiming → Bool
  | _, [] => true
  | b, t :: rest => t.isSignal == b && altFrom (!b) rest

/-- `morseToTiming` applied to the rendering of a structured message, with the
rendered character list packed into a `String` as the Symbol Mapper does. -/
def timingOfMessage (ws : List (List (List Char))) (u : ℕ) : List MorseTiming :=
  morseToTiming (String.mk (renderMessage ws)) u

/-! ### Timer world

JavaScript timer plumbing: `setInterval`/`setTimeout` return fresh handles;
a handle stays live until the matching `clearInterval`/`clearTimeout`. -/

/-- The set of live timers, with a fresh-handle counter. -/
structure TimerWorld where
  nextId : ℕ
  liveIntervals : List ℕ
  liveTimeouts : List ℕ
deriving DecidableEq

/-- A world with no live timers. -/
def initialTimerWorld : TimerWorld := { nextId := 0, liveIntervals := [], liveTimeouts := [] }

/-- `setInterval`: allocate a fresh live interval handle. -/
def setIntervalW (w : TimerWorld) : ℕ × TimerWorld :=
  (w.nextId, { w with nextId := w.nextId + 1, liveIntervals := w.nextId :: w.liveIntervals })

/-- `clearInterval`: the handle is no longer live. -/
def clearIntervalW (w : TimerWorld) (h : ℕ) : TimerWorld :=
  { w with liveIntervals := w.liveIntervals.erase h }

/-- `setTimeout`: allocate a fresh live timeout handle. -/
def setTimeoutW (w : TimerWorld) : ℕ × TimerWorld :=
  (w.nextId, { w with nextId := w.nextId + 1, liveTimeouts := w.nextId :: w.liveTimeouts })

/-- `clearTimeout`: the handle is no longer live. -/
def clearTimeoutW (w : TimerWorld) (h : ℕ) : TimerWorld :=
  { w with liveTimeouts := w.liveTimeouts.erase h }

/-! ### Playback Engine (`AudioService`, `src/unnamed/part_007` lines 1-618)

Times (`Date.now()` values) and speed-adjusted durations are rationals.
The `sound` handle and the stored progress/completion callbacks play no role
in the claims below and are not modelled; `initializeAudio` is modelled as
succeeding (an ideal audio environment). -/

/-- The `PlaybackState` record of `AudioService`. -/
structure PlaybackState where
  isPlaying : Bool
  isPaused : Bool
  currentIndex : ℕ
  startTime : ℚ
  pausedTime : ℚ
  totalDuration : ℚ
deriving DecidableEq

/-- The fields of the `AudioService` singleton used by playback. -/
structure AudioServiceState where
  playbackState : PlaybackState
  accumulatedDuration : ℚ
  currentItemStartTime : ℚ
  progressInterval : Option ℕ
  playbackTimeout : Option ℕ
  currentTimings : List MorseTiming
  currentSpeed : ℚ
deriving DecidableEq

/-- The field initializers of the `AudioService` class. -/
def initialAudioServiceState : AudioServiceState :=
  { playbackState :=
      { isPlaying := false, isPaused := false, currentIndex := 0,
        startTime := 0, pausedTime := 0, totalDuration := 0 },
    accumulatedDuration := 0,
    currentItemStartTime := 0,
    progressInterval := none,
    playbackTimeout := none,
    currentTimings := [],
    currentSpeed := 1 }

/-- `AudioService.calculateTotalDuration`:
`timings.reduce((total, timing) => total + timing.duration / speed, 0)`. -/
def calculateTotalDuration (timings : List MorseTiming) (speed : ℚ) : ℚ :=
  timings.foldl (fun total timing => total + (timing.duration : ℚ) / speed) 0

/-- `AudioService.startProgressTracking`: installs a fresh progress-sampling
interval, overwriting the `progressInterval` field. The previously stored
handle (if any) is NOT cleared. -/
def startProgressTracking (s : AudioServiceState) (w : TimerWorld) :
    AudioServiceState × TimerWorld :=
  let r := setIntervalW w
  ({ s with progressInterval := some r.1 }, r.2)

/-- The scheduling step at the end of `playSequence`:
`this.playbackTimeout = setTimeout(() => this.playSequence(...), 0)`. -/
def schedulePlaybackStep (s : AudioServiceState) (w : TimerWorld) :
    AudioServiceState × TimerWorld :=
  let r := setTimeoutW w
  ({ s with playbackTimeout := some r.1 }, r.2)

/-- `AudioService.playMorse` (synchronous part): input validation, state
initialization, and `startProgressTracking`. The subsequent event emission
(`playSequence`) runs on the timer queue and is modelled separately by
`schedulePlaybackStep`. Note that no part of this method cancels a previous
`progressInterval` or `playbackTimeout` of a previous session. -/
def playMorse (s : AudioServiceState) (w : TimerWorld) (timings : List MorseTiming)
    (speed : ℚ) (now : ℚ) : Except String (AudioServiceState × TimerWorld) :=
  if timings.length = 0 then
    .error "No timings provided"
  else if speed < 1/2 ∨ 2 < speed then
    .error "Speed must be between 0.5 and 2.0"
  else
    let totalDuration := calculateTotalDuration timings speed
    let s1 : AudioServiceState :=
      { s with
        currentTimings := timings,
        currentSpeed := speed,
        playbackState :=
          { isPlaying := true, isPaused := false, currentIndex := 0,
            startTime := now, pausedTime := 0, totalDuration := totalDuration },
        accumulatedDuration := 0,
        currentItemStartTime := 0 }
    .ok (startProgressTracking s1 w)

/-- `AudioService.pausePlayback`: when `Playing`, marks the session paused,
records the pause time, and clears the pending `playbackTimeout` (the
in-flight sound is also stopped; not modelled). -/
def pausePlayback (s : AudioServiceState) (w : TimerWorld) (now : ℚ) :
    AudioServiceState × TimerWorld :=
  if s.playbackState.isPlaying && !s.playbackState.isPaused then
    let s1 := { s with playbackState := { s.playbackState with isPaused := true, pausedTime := now } }
    match s1.playbackTimeout with
    | some h => ({ s1 with playbackTimeout := none }, clearTimeoutW w h)
    | none => (s1, w)
  else (s, w)

/-- The index-searching loop of `AudioService.seekTo`: starting from
`accumulatedTime = acc` at index `i`, break at the first event whose
adjusted duration makes the running sum reach `target`; on fall-through the
`targetIndex` keeps its initial value `0` and `accumulatedTime` is the full
sum, exactly as in the source. -/
def seekScanGo (speed target : ℚ) : List MorseTiming → ℚ → ℕ → ℕ × ℚ
  | [], acc, _ => (0, acc)
  | t :: rest, acc, i =>
      if target ≤ acc + (t.duration : ℚ) / speed then (i, acc)
      else seekScanGo speed target rest (acc + (t.duration : ℚ) / speed) (i + 1)

/-- `AudioService.seekTo` (synchronous part): validates the position, pauses
the current playback, walks the timing list for the target index, and updates
`currentIndex`, `accumulatedDuration` and `currentItemStartTime`; when
playback was active the paused flag is reset (the resumed `playSequence` runs
on the timer queue and is not modelled). -/
def seekTo (s : AudioServiceState) (w : TimerWorld) (now position : ℚ) :
    Except String (AudioServiceState × TimerWorld) :=
  if position < 0 ∨ 1 < position then
    .error "Position must be between 0 and 1"
  else
    let wasPlaying := s.playbackState.isPlaying && !s.playbackState.isPaused
    let p := pausePlayback s w now
    let s1 := p.1
    let targetTime := position * s1.playbackState.totalDuration
    let scan := seekScanGo s1.currentSpeed targetTime s1.currentTimings 0 0
    let s2 :=
      { s1 with
        playbackState := { s1.playbackState with currentIndex := scan.1 },
        accumulatedDuration := scan.2,
        currentItemStartTime := now }
    if wasPlaying then
      .ok ({ s2 with playbackState := { s2.playbackState with isPaused := false } }, p.2)
    else
      .ok (s2, p.2)

/-- The running sum of the first `n` adjusted durations of a timing list. -/
def takeSum (ds : List ℚ) (n : ℕ) : ℚ :=
  (ds.take n).sum

/-- The speed-adjusted durations of the current sequence of a session. -/
def adjDurations (timings : List MorseTiming) (speed : ℚ) : List ℚ :=
  timings.map (fun t => (t.duration : ℚ) / speed)

/-! ### File synthesis (`AudioService.generateAudioFile` and
`AudioService.createWavHeader`)

The generated file is modelled as its byte list. 16-bit samples are stored
little-endian in twos-complement form, as `DataView.setInt16(..., true)` does.
The sine-wave sample values go through `Math.sin` (double-precision floats);
the synthesis is therefore parametrized by the signal-on sample function
`tone : ℕ → ℤ`, standing for
`Math.floor(Math.sin(2π · 600 · (i / 44100)) · 0.3 · 32767)`. None of the
claims depend on the sample values. -/

/-- Byte `k` (little-endian) of a 32-bit field, as `DataView.setUint32`
stores it. -/
def u32Byte (n k : ℕ) : ℕ :=
  n / 256 ^ k % 256

/-- `AudioService.createWavHeader`: the 44-byte canonical PCM WAV header, in
offset order. `numChannels = 1`, `bitsPerSample = 16`, so
`dataSize = numSamples * 2`, `byteRate = sampleRate * 2`, `blockAlign = 2`.
16-bit fields are written as two little-endian bytes. -/
def createWavHeader (numSamples sampleRate : ℕ) : List ℕ :=
  let dataSize := numSamples * 2
  let byteRate := sampleRate * 2
  [0x52, 0x49, 0x46, 0x46,
   u32Byte (36 + dataSize) 0, u32Byte (36 + dataSize) 1,
   u32Byte (36 + dataSize) 2, u32Byte (36 + dataSize) 3,
   0x57, 0x41, 0x56, 0x45,
   0x66, 0x6D, 0x74, 0x20,
   16, 0, 0, 0,
   1, 0,
   1, 0,
   u32Byte sampleRate 0, u32Byte sampleRate 1, u32Byte sampleRate 2, u32Byte sampleRate 3,
   u32Byte byteRate 0, u32Byte byteRate 1, u32Byte byteRate 2, u32Byte byteRate 3,
   2, 0,
   16, 0,
   0x64, 0x61, 0x74, 0x61,
   u32Byte dataSize 0, u32Byte dataSize 1, u32Byte dataSize 2, u32Byte dataSize 3]

/-- A 16-bit sample as its two little-endian twos-complement bytes
(`DataView.setInt16(offset, v, true)`). -/
def int16ToBytes (v : ℤ) : List ℕ :=
  let w := (v % 65536).toNat
  [w % 256, w / 256]

/-- The inner sample-writing loop:
`for (i = 0; i < numSamples && currentSampleIndex < totalSamples; i++)
   samples[currentSampleIndex++] = val(i)`. -/
def fillGo (val : ℕ → ℤ) : ℕ → ℕ → ℕ → List ℤ → List ℤ × ℕ
  | 0, _, idx, buf => (buf, idx)
  | n + 1, i, idx, buf =>
      if idx < buf.length then fillGo val n (i + 1) (idx + 1) (buf.set idx (val i))
      else (buf, idx)

/-- Samples for one timing: sine samples (`tone`) for a signal-on event,
zero samples for a gap, truncated at the buffer end. -/
def writeTiming (tone : ℕ → ℤ) (speed : ℚ) (t : MorseTiming) (buf : List ℤ) (idx : ℕ) :
    List ℤ × ℕ :=
  let adjustedDuration := (t.duration : ℚ) / speed
  let numSamples := (Int.floor (adjustedDuration / 1000 * 44100)).toNat
  if t.isSignal then fillGo tone numSamples 0 idx buf
  else fillGo (fun _ => 0) numSamples 0 idx buf

/-- The per-timing sample generation loop of `generateAudioFile`. -/
def fillSamples (tone : ℕ → ℤ) (speed : ℚ) : List MorseTiming → List ℤ → ℕ → List ℤ
  | [], buf, _ => buf
  | t :: rest, buf, idx =>
      let r := writeTiming tone speed t buf idx
      fillSamples tone speed rest r.1 r.2

/-- The sample buffer serialized as bytes. -/
def toByteStream (samples : List ℤ) : List ℕ :=
  (samples.map int16ToBytes).flatten

/-- `AudioService.generateAudioFile`: validation, total sample count at
44.1 kHz, sample synthesis into a zero-initialized buffer of exactly
`totalSamples` entries (`new Int16Array(totalSamples)`), and the WAV bytes
`header ++ samples`. Writing the file to storage and the timestamped
filename are outside the model; the result is the byte content.

`totalSamplesOf` is the total sample count at 44.1 kHz:
`Math.floor((totalDuration / 1000) * sampleRate)`. -/
def totalSamplesOf (timings : List MorseTiming) (speed : ℚ) : ℕ :=
  (Int.floor (calculateTotalDuration timings speed / 1000 * 44100)).toNat

/-- `AudioService.generateAudioFile`: validation, then sample synthesis into
a zero-initialized buffer of exactly `totalSamples` entries
(`new Int16Array(totalSamples)`), and the WAV bytes `header ++ samples`.
Writing the file to storage and the timestamped filename are outside the
model; the result is the byte content. -/
def generateAudioFile (tone : ℕ → ℤ) (timings : List MorseTiming) (speed : ℚ) :
    Except String (List ℕ) :=
  if timings.length = 0 then
    .error "No timings provided"
  else if speed < 1/2 ∨ 2 < speed then
    .error "Speed must be between 0.5 and 2.0"
  else
    let totalSamples := totalSamplesOf timings speed
    let samples := fillSamples tone speed timings (List.replicate totalSamples 0) 0
    .ok (createWavHeader totalSamples 44100 ++ toByteStream samples)

/-- Little-endian 16-bit read from a byte list. -/
def readU16le (bs : List ℕ) (off : ℕ) : ℕ :=
  bs.getD off 0 + 256 * bs.getD (off + 1) 0

/-- Little-endian 32-bit read from a byte list. -/
def readU32le (bs : List ℕ) (off : ℕ) : ℕ :=
  bs.getD off 0 + 256 * bs.getD (off + 1) 0 + 65536 * bs.getD (off + 2) 0 +
    16777216 * bs.getD (off + 3) 0

/-! ### Transmission Scheduler (`FlashlightService`) -/

/-- The fields of the `FlashlightService` singleton (the torch-change
callback is an external collaborator and is not modelled). -/
structure FlashlightState where
  isTransmitting : Bool
  transmissionTimeouts : List ℕ
  torchEnabled : Bool
deriving DecidableEq

/-- The field initializers of the `FlashlightService` class. -/
def initialFlashlightState : FlashlightState :=
  { isTransmitting := false, transmissionTimeouts := [], torchEnabled := false }

/-- The first, synchronous iteration of `scheduleNext` inside
`executeTimingSequence` (`currentIndex = 0`): re-checks the transmitting
flag and the index bound, switches the torch according to the first timing,
and schedules the next step, pushing its timeout handle. Later iterations
fire on the timer queue and are not modelled. -/
def executeFirstStep (s : FlashlightState) (w : TimerWorld) (timings : List MorseTiming) :
    FlashlightState × TimerWorld :=
  if !s.isTransmitting || timings.length ≤ 0 then
    ({ s with torchEnabled := false, isTransmitting := false }, w)
  else
    let t := timings.getD 0 { type := .dit, duration := 0 }
    let s1 := { s with torchEnabled := t.isSignal }
    let r := setTimeoutW w
    ({ s1 with transmissionTimeouts := s1.transmissionTimeouts ++ [r.1] }, r.2)

/-- `FlashlightService.transmitMorse` (synchronous part). The busy check
throws inside the `try` block, so the `catch` block runs: it sets
`isTransmitting = false`, reports `onError`, and rethrows. `hasPermission`
always resolves `true` in the source. An empty sequence completes
immediately. Otherwise the transmitting flag is set and the first step of
`executeTimingSequence` runs. -/
def transmitMorse (s : FlashlightState) (w : TimerWorld) (timings : List MorseTiming) :
    Except String Unit × FlashlightState × TimerWorld :=
  if s.isTransmitting then
    (.error "Transmission already in progress", { s with isTransmitting := false }, w)
  else if timings.length = 0 then
    (.ok (), s, w)
  else
    let s1 := { s with isTransmitting := true }
    let r := executeFirstStep s1 w timings
    (.ok (), r.1, r.2)

/-- A concrete mid-session playback state used to exercise `seekTo`: a
two-event sequence (dit 120 ms, letter gap 360 ms) at speed 1, total
duration 480 ms. -/
def c3SeekState : AudioServiceState :=
  { playbackState :=
      { isPlaying := true, isPaused := false, currentIndex := 0,
        startTime := 0, pausedTime := 0, totalDuration := 480 },
    accumulatedDuration := 0,
    currentItemStartTime := 0,
    progressInterval := none,
    playbackTimeout := none,
    currentTimings := [{ type := .dit, duration := 120 }, { type := .letterGap, duration := 360 }],
    currentSpeed := 1 }

/-! ## Theorems -/

/-! ### Generic facts about the event kinds -/

theorem signal_or_gap (t : MorseTiming) : t.isSignal = true ∨ t.isGap = true := by
  cases t with
  | mk ty d => cases ty <;> simp [MorseTiming.isSignal, MorseTiming.isGap]

theorem isGap_eq_not_isSignal (t : MorseTiming) : t.isGap = !t.isSignal := by
  cases t with
  | mk ty d => cases ty <;> simp [MorseTiming.isSignal, MorseTiming.isGap]

/-! ### The timing compiler: durations and signal counts -/

theorem emitStep_mem (u : ℕ) (c : Char) (prev next : Option Char) (t : MorseTiming)
    (h : t ∈ emitStep u c prev next) :
    t = { type := .dit, duration := u } ∨ t = { type := .dah, duration := u * 3 } ∨
    t = { type := .symbolGap, duration := u } ∨ t = { type := .letterGap, duration := u * 3 } ∨
    t = { type := .wordGap, duration := u * 7 } := by
  unfold emitStep at h
  split_ifs at h <;> simp_all <;> tauto

theorem morseToTimingAux_duration (u : ℕ) (cs : List Char) :
    ∀ (prev : Option Char) (t : MorseTiming), t ∈ morseToTimingAux u prev cs →
      t.duration = u * unitScale t.type := by
  induction cs with
  | nil => intro prev t h; simp [morseToTimingAux] at h
  | cons c rest ih =>
      intro prev t h
      rw [morseToTimingAux] at h
      rcases List.mem_append.mp h with h1 | h2
      · rcases emitStep_mem u c prev rest.head? t h1 with h | h | h | h | h <;>
          subst h <;> simp [unitScale]
      · exact ih (some c) t h2

theorem emitStep_count (u : ℕ) (c : Char) (prev next : Option Char) :
    (emitStep u c prev next).countP (fun t => t.isSignal) =
      (if (c = '.' || c = '-') = true then 1 else 0) := by
  unfold emitStep
  split_ifs <;> simp_all [MorseTiming.isSignal, List.countP_cons]

theorem morseToTimingAux_count (u : ℕ) (cs : List Char) :
    ∀ prev, (morseToTimingAux u prev cs).countP (fun t => t.isSignal) =
      cs.countP (fun c => c = '.' || c = '-') := by
  induction cs with
  | nil => intro prev; simp [morseToTimingAux]
  | cons c rest ih =>
      intro prev
      rw [morseToTimingAux, List.countP_append, emitStep_count, ih (some c),
        List.countP_cons, Nat.add_comm]

theorem whitespace_not_dotdash (a : Char) (hw : a.isWhitespace = true) :
    ¬(a = '.' || a = '-') = true := by
  simp [Char.isWhitespace] at hw
  rcases hw with ((h | h) | h) | h <;> subst h <;> decide

theorem morseToTimingL_count (cs : List Char) (u : ℕ) :
    (morseToTimingL cs u).countP (fun t => t.isSignal) =
      cs.countP (fun c => c = '.' || c = '-') := by
  rw [morseToTimingL]
  split_ifs with h
  · symm
    simp only [List.countP_nil, List.countP_eq_zero]
    intro a ha
    exact whitespace_not_dotdash a (List.all_eq_true.mp h a ha)
  · exact morseToTimingAux_count u cs none

/-- C6: `morseToTiming` maps `"."` at time unit 100 to the single event
Dit(100), `"-"` to Dah(300), and `".-"` to exactly the three events
Dit(100), SymbolGap(100), Dah(300); in general the duration of every emitted event is the fixed multiple of the time unit: dit=1u, dah=3u,
symbol gap=1u, letter gap=3u, word gap=7u. -/
theorem C6_morseToTiming_durations :
    morseToTiming "." 100 = [{ type := .dit, duration := 100 }] ∧
    morseToTiming "-" 100 = [{ type := .dah, duration := 300 }] ∧
    morseToTiming ".-" 100 =
      [{ type := .dit, duration := 100 }, { type := .symbolGap, duration := 100 },
       { type := .dah, duration := 300 }] ∧
    ∀ (morse : String) (u : ℕ) (t : MorseTiming),
      t ∈ morseToTiming morse u → t.duration = u * unitScale t.type := by
  refine ⟨by decide, by decide, by decide, ?_⟩
  intro morse u t h
  rw [morseToTiming, morseToTimingL] at h
  split_ifs at h
  · simp at h
  · exact morseToTimingAux_duration u morse.data none t h

/-- Witness for C6: the dit event of `morseToTiming "." 100` has duration
`100 * 1`. -/
theorem C6_morseToTiming_durations_witness :
    ({ type := .dit, duration := 100 } : MorseTiming) ∈ morseToTiming "." 100 ∧
    ({ type := .dit, duration := 100 } : MorseTiming).duration =
      100 * unitScale ({ type := .dit, duration := 100 } : MorseTiming).type :=
  ⟨by decide, C6_morseToTiming_durations.2.2.2 "." 100 _ (by decide)⟩

/-- C7: `textToMorse` uppercases its input, maps characters through the fixed
international table, silently drops unsupported characters (`"S#S"`), joins
letters with single spaces and words with `' / '`; `"SOS"` and
`"HELLO WORLD"` map as specified, and empty or whitespace-only input yields
the empty string. -/
theorem C7_textToMorse_spec :
    textToMorse "SOS" = "... --- ..." ∧
    textToMorse "HELLO WORLD" = ".... . .-.. .-.. --- / .-- --- .-. .-.. -.." ∧
    textToMorse "sos" = "... --- ..." ∧
    textToMorse "S#S" = "... ..." ∧
    textToMorse "" = "" ∧
    ∀ text : String, text.data.all Char.isWhitespace = true → textToMorse text = "" := by
  refine ⟨by decide, by decide, by decide, by decide, by decide, ?_⟩
  intro text h
  rw [textToMorse, textToMorseL, if_pos h]

/-- Witness for C7: whitespace-only input yields the empty string. -/
theorem C7_textToMorse_spec_witness :
    ("  ").data.all Char.isWhitespace = true ∧ textToMorse "  " = "" :=
  ⟨by decide, C7_textToMorse_spec.2.2.2.2.2 "  " (by decide)⟩

/-- C8: the round trip `morseToTiming (textToMorse text)` (a total function,
hence terminating) has exactly as many signal-on events as there are `'.'`
and `'-'` characters in `textToMorse text`, and every event is either a
signal-on event or a gap event. -/
theorem C8_roundTrip_signal_count (text : String) (u : ℕ) :
    ((morseToTiming (textToMorse text) u).countP (fun t => t.isSignal) =
      (textToMorse text).data.countP (fun c => c = '.' || c = '-')) ∧
    ∀ t ∈ morseToTiming (textToMorse text) u, t.isSignal = true ∨ t.isGap = true := by
  constructor
  · exact morseToTimingL_count (textToMorse text).data u
  · intro t _
    exact signal_or_gap t

/-- Witness for C8: the round trip on `"SOS"` at time unit 100. -/
theorem C8_roundTrip_signal_count_witness :
    ((morseToTiming (textToMorse "SOS") 100).countP (fun t => t.isSignal) =
      (textToMorse "SOS").data.countP (fun c => c = '.' || c = '-')) ∧
    (({ type := .dit, duration := 100 } : MorseTiming).isSignal = true ∨
      ({ type := .dit, duration := 100 } : MorseTiming).isGap = true) :=
  ⟨(C8_roundTrip_signal_count "SOS" 100).1,
   (C8_roundTrip_signal_count "SOS" 100).2 { type := .dit, duration := 100 } (by decide)⟩

/-- C10: the scanning loop of `morseToTiming` emits no event for a character
outside `{'.', '-', ' ', '/'}`: its `emitStep` is empty whatever the
neighbouring characters are, so the character contributes nothing to the
output sequence. -/
theorem C10_unsupported_chars_skipped (u : ℕ) (prev : Option Char) (c : Char)
    (rest : List Char) (h : ¬(c = '.' ∨ c = '-' ∨ c = ' ' ∨ c = '/')) :
    (∀ next, emitStep u c prev next = []) ∧
    morseToTimingAux u prev (c :: rest) = morseToTimingAux u (some c) rest := by
  push_neg at h
  obtain ⟨h1, h2, h3, h4⟩ := h
  have he : ∀ next, emitStep u c prev next = [] := by
    intro next
    unfold emitStep
    simp [h1, h2, h3, h4]
  refine ⟨he, ?_⟩
  rw [morseToTimingAux, he rest.head?, List.nil_append]

/-- Witness for C10: the letter `'X'` inside a scan contributes no event. -/
theorem C10_unsupported_chars_skipped_witness :
    ¬('X' = '.' ∨ 'X' = '-' ∨ 'X' = ' ' ∨ 'X' = '/') ∧
    morseToTimingAux 100 none ('X' :: ['.']) = morseToTimingAux 100 (some 'X') ['.'] :=
  ⟨by decide, (C10_unsupported_chars_skipped 100 none 'X' ['.'] (by decide)).2⟩

/-! ### Playback engine validation -/

theorem playMorse_ok (s : AudioServiceState) (w : TimerWorld) (timings : List MorseTiming)
    (speed now : ℚ) (hne : ¬timings.length = 0) (hsp : ¬(speed < 1/2 ∨ 2 < speed)) :
    playMorse s w timings speed now =
      .ok
        ({ s with
            currentTimings := timings,
            currentSpeed := speed,
            playbackState :=
              { isPlaying := true, isPaused := false, currentIndex := 0,
                startTime := now, pausedTime := 0,
                totalDuration := calculateTotalDuration timings speed },
            accumulatedDuration := 0,
            currentItemStartTime := 0,
            progressInterval := some w.nextId },
         { w with nextId := w.nextId + 1, liveIntervals := w.nextId :: w.liveIntervals }) := by
  rw [playMorse, if_neg hne, if_neg hsp]
  rfl

/-- C4: `playMorse` and `generateAudioFile` both fail with the InvalidInput
error `'No timings provided'` on an empty event sequence, both fail with the
InvalidInput error `'Speed must be between 0.5 and 2.0'` when the speed is
outside `[0.5, 2.0]`, and every speed inside `[0.5, 2.0]` (with a nonempty
sequence) passes their validation. -/
theorem C4_validation :
    (∀ s w (speed now : ℚ), playMorse s w [] speed now = .error "No timings provided") ∧
    (∀ (tone : ℕ → ℤ) (speed : ℚ),
      generateAudioFile tone [] speed = .error "No timings provided") ∧
    (∀ s w (now : ℚ) (timings : List MorseTiming) (speed : ℚ), timings ≠ [] →
      (speed < 1/2 ∨ 2 < speed) →
      playMorse s w timings speed now = .error "Speed must be between 0.5 and 2.0") ∧
    (∀ (tone : ℕ → ℤ) (timings : List MorseTiming) (speed : ℚ), timings ≠ [] →
      (speed < 1/2 ∨ 2 < speed) →
      generateAudioFile tone timings speed = .error "Speed must be between 0.5 and 2.0") ∧
    (∀ s w (now : ℚ) (timings : List MorseTiming) (speed : ℚ), timings ≠ [] →
      1/2 ≤ speed → speed ≤ 2 → (playMorse s w timings speed now).isOk = true) ∧
    (∀ (tone : ℕ → ℤ) (timings : List MorseTiming) (speed : ℚ), timings ≠ [] →
      1/2 ≤ speed → speed ≤ 2 → (generateAudioFile tone timings speed).isOk = true) := by
  refine ⟨?_, ?_, ?_, ?_, ?_, ?_⟩
  · intro s w speed now
    rfl
  · intro tone speed
    rfl
  · intro s w now timings speed hne hsp
    have hlen : ¬timings.length = 0 := by simpa [List.length_eq_zero] using hne
    rw [playMorse, if_neg hlen, if_pos hsp]
  · intro tone timings speed hne hsp
    have hlen : ¬timings.length = 0 := by simpa [List.length_eq_zero] using hne
    rw [generateAudioFile, if_neg hlen, if_pos hsp]
  · intro s w now timings speed hne h1 h2
    have hlen : ¬timings.length = 0 := by simpa [List.length_eq_zero] using hne
    have hsp : ¬(speed < 1/2 ∨ 2 < speed) := by
      rw [not_or]
      exact ⟨not_lt.mpr h1, not_lt.mpr h2⟩
    rw [playMorse_ok s w timings speed now hlen hsp]
    rfl
  · intro tone timings speed hne h1 h2
    have hlen : ¬timings.length = 0 := by simpa [List.length_eq_zero] using hne
    have hsp : ¬(speed < 1/2 ∨ 2 < speed) := by
      rw [not_or]
      exact ⟨not_lt.mpr h1, not_lt.mpr h2⟩
    rw [generateAudioFile, if_neg hlen, if_neg hsp]
    rfl

/-- Witness for C4: empty sequence at speed 1; speed 0.3 rejected; speed 2.5
rejected; boundary speeds 0.5 and 2.0 accepted. -/
theorem C4_validation_witness :
    playMorse initialAudioServiceState initialTimerWorld [] 1 0 =
      .error "No timings provided" ∧
    generateAudioFile (fun _ => 0) [] 1 = .error "No timings provided" ∧
    playMorse initialAudioServiceState initialTimerWorld
      [{ type := .dit, duration := 120 }] (3/10) 0 =
      .error "Speed must be between 0.5 and 2.0" ∧
    generateAudioFile (fun _ => 0) [{ type := .dit, duration := 120 }] (5/2) =
      .error "Speed must be between 0.5 and 2.0" ∧
    (playMorse initialAudioServiceState initialTimerWorld
      [{ type := .dit, duration := 120 }] (1/2) 0).isOk = true ∧
    (generateAudioFile (fun _ => 0) [{ type := .dit, duration := 120 }] 2).isOk = true :=
  ⟨C4_validation.1 initialAudioServiceState initialTimerWorld 1 0,
   C4_validation.2.1 (fun _ => 0) 1,
   C4_validation.2.2.1 initialAudioServiceState initialTimerWorld 0 _ _ (by decide)
     (by norm_num),
   C4_validation.2.2.2.1 (fun _ => 0) _ _ (by decide) (by norm_num),
   C4_validation.2.2.2.2.1 initialAudioServiceState initialTimerWorld 0 _ _ (by decide)
     (by norm_num) (by norm_num),
   C4_validation.2.2.2.2.2 (fun _ => 0) _ _ (by decide) (by norm_num) (by norm_num)⟩

/-- C1 (code bug): a `playMorse` call while a prior session is `Playing` does
NOT tear the prior session down. Starting from the initial state, a first
`playMorse` installs progress interval 0 and its `playSequence` step schedules
timeout 1; while that session is playing, a second `playMorse` succeeds and
leaves BOTH interval 0 and the new interval 2 live (the prior sampler is
never cancelled — `startProgressTracking` just overwrites the handle), and
the pending playback timeout 1 of the prior session is still scheduled. -/
theorem C1_playMorse_leaks_prior_session :
    ∃ s1 w1 s2 w2 s3 w3,
      playMorse initialAudioServiceState initialTimerWorld
        [{ type := .dit, duration := 120 }] 1 0 = .ok (s1, w1) ∧
      schedulePlaybackStep s1 w1 = (s2, w2) ∧
      s2.playbackState.isPlaying = true ∧
      s2.playbackState.isPaused = false ∧
      s2.progressInterval = some 0 ∧
      w2.liveIntervals = [0] ∧
      s2.playbackTimeout = some 1 ∧
      w2.liveTimeouts = [1] ∧
      playMorse s2 w2 [{ type := .dit, duration := 120 }] 1 1000 = .ok (s3, w3) ∧
      w3.liveIntervals = [2, 0] ∧
      s3.progressInterval = some 2 ∧
      w3.liveTimeouts = [1] ∧
      s3.playbackTimeout = some 1 := by
  have e1 := playMorse_ok initialAudioServiceState initialTimerWorld
    [{ type := .dit, duration := 120 }] 1 0 (by decide) (by norm_num)
  have e2 := playMorse_ok
    { initialAudioServiceState with
        currentTimings := [{ type := .dit, duration := 120 }],
        currentSpeed := 1,
        playbackState :=
          { isPlaying := true, isPaused := false, currentIndex := 0, startTime := 0,
            pausedTime := 0,
            totalDuration := calculateTotalDuration [{ type := .dit, duration := 120 }] 1 },
        accumulatedDuration := 0, currentItemStartTime := 0,
        progressInterval := some 0, playbackTimeout := some 1 }
    { nextId := 2, liveIntervals := [0], liveTimeouts := [1] }
    [{ type := .dit, duration := 120 }] 1 1000 (by decide) (by norm_num)
  exact ⟨_, _, _, _, _, _, e1, rfl, rfl, rfl, rfl, rfl, rfl, rfl, e2, rfl, rfl, rfl, rfl⟩

/-- C5 (code bug): `transmitMorse` while a transmission is in progress fails
immediately with `'Transmission already in progress'`, but the rejected call
is NOT side-effect free: the `catch` block sets `isTransmitting` to `false`,
clobbering the state of the in-progress transmission (its scheduled timeouts do
remain). -/
theorem C5_transmitMorse_busy_clobbers_state :
    (transmitMorse { isTransmitting := true, transmissionTimeouts := [5], torchEnabled := true }
      { nextId := 6, liveIntervals := [], liveTimeouts := [5] }
      [{ type := .dit, duration := 120 }]).1 =
        .error "Transmission already in progress" ∧
    (transmitMorse { isTransmitting := true, transmissionTimeouts := [5], torchEnabled := true }
      { nextId := 6, liveIntervals := [], liveTimeouts := [5] }
      [{ type := .dit, duration := 120 }]).2.1 =
        { isTransmitting := false, transmissionTimeouts := [5], torchEnabled := true } := by
  exact ⟨rfl, rfl⟩

/-! ### `seekTo`: the index search -/

theorem adjDurations_cons (t : MorseTiming) (rest : List MorseTiming) (speed : ℚ) :
    adjDurations (t :: rest) speed = (t.duration : ℚ) / speed :: adjDurations rest speed := rfl

theorem calculateTotalDuration_eq_sum (timings : List MorseTiming) (speed : ℚ) :
    calculateTotalDuration timings speed = (adjDurations timings speed).sum := by
  have h : ∀ (ts : List MorseTiming) (a : ℚ),
      List.foldl (fun total timing => total + (timing.duration : ℚ) / speed) a ts =
        a + (adjDurations ts speed).sum := by
    intro ts
    induction ts with
    | nil => intro a; simp [adjDurations]
    | cons t rest ih =>
        intro a
        rw [List.foldl_cons, ih, adjDurations_cons, List.sum_cons]
        ring
  rw [calculateTotalDuration, h timings 0, zero_add]

theorem takeSum_zero (ds : List ℚ) : takeSum ds 0 = 0 := by
  simp [takeSum]

theorem takeSum_cons_succ (d : ℚ) (ds : List ℚ) (n : ℕ) :
    takeSum (d :: ds) (n + 1) = d + takeSum ds n := by
  simp [takeSum]

theorem seekScanGo_cons (speed target : ℚ) (t : MorseTiming) (rest : List MorseTiming)
    (acc : ℚ) (i : ℕ) :
    seekScanGo speed target (t :: rest) acc i =
      if target ≤ acc + (t.duration : ℚ) / speed then (i, acc)
      else seekScanGo speed target rest (acc + (t.duration : ℚ) / speed) (i + 1) := rfl

theorem seekScanGo_spec (speed target : ℚ) (ts : List MorseTiming) :
    ∀ (acc : ℚ) (i : ℕ), ts ≠ [] →
      target ≤ acc + (adjDurations ts speed).sum →
      ∃ k, (seekScanGo speed target ts acc i).1 = i + k ∧ k < ts.length ∧
        (seekScanGo speed target ts acc i).2 = acc + takeSum (adjDurations ts speed) k ∧
        target ≤ acc + takeSum (adjDurations ts speed) (k + 1) ∧
        ∀ j, j < k → acc + takeSum (adjDurations ts speed) (j + 1) < target := by
  induction ts with
  | nil => intro acc i h _; exact absurd rfl h
  | cons t rest ih =>
      intro acc i _ hreach
      by_cases hbreak : target ≤ acc + (t.duration : ℚ) / speed
      · refine ⟨0, ?_, by simp, ?_, ?_, ?_⟩
        · rw [seekScanGo_cons, if_pos hbreak]
          simp
        · rw [seekScanGo_cons, if_pos hbreak, takeSum_zero]
          ring
        · rw [adjDurations_cons, takeSum_cons_succ, takeSum_zero]
          simpa using hbreak
        · intro j hj
          omega
      · cases rest with
        | nil =>
            exfalso
            apply hbreak
            have hs : (adjDurations [t] speed).sum = (t.duration : ℚ) / speed := by
              simp [adjDurations]
            rw [hs] at hreach
            exact hreach
        | cons t2 r2 =>
            have hreach2 : target ≤ (acc + (t.duration : ℚ) / speed) +
                (adjDurations (t2 :: r2) speed).sum := by
              rw [adjDurations_cons, List.sum_cons] at hreach
              linarith
            obtain ⟨k, hk1, hk2, hk3, hk4, hk5⟩ :=
              ih (acc + (t.duration : ℚ) / speed) (i + 1) (by simp) hreach2
            refine ⟨k + 1, ?_, by simpa using Nat.succ_lt_succ hk2, ?_, ?_, ?_⟩
            · rw [seekScanGo_cons, if_neg hbreak, hk1]
              omega
            · rw [seekScanGo_cons, if_neg hbreak, hk3, adjDurations_cons t (t2 :: r2) speed,
                takeSum_cons_succ]
              ring
            · rw [adjDurations_cons t (t2 :: r2) speed, takeSum_cons_succ]
              linarith
            · intro j hj
              cases j with
              | zero =>
                  rw [adjDurations_cons t (t2 :: r2) speed, takeSum_cons_succ, takeSum_zero]
                  have hlt := not_le.mp hbreak
                  linarith
              | succ j2 =>
                  rw [adjDurations_cons t (t2 :: r2) speed, takeSum_cons_succ]
                  have := hk5 j2 (by omega)
                  linarith

theorem pausePlayback_preserves (s : AudioServiceState) (w : TimerWorld) (now : ℚ) :
    (pausePlayback s w now).1.currentTimings = s.currentTimings ∧
    (pausePlayback s w now).1.currentSpeed = s.currentSpeed ∧
    (pausePlayback s w now).1.playbackState.totalDuration =
      s.playbackState.totalDuration := by
  unfold pausePlayback
  split_ifs with h
  · cases hpt : s.playbackTimeout <;> simp [hpt]
  · simp

/-- C3: `seekTo p` fails with the InvalidInput error
`'Position must be between 0 and 1'` when `p < 0` or `p > 1`; for `p` in
`[0,1]` (in a session whose stored total duration is the computed total of
its sequence) it sets `currentIndex` to the first event at which the running
sum of speed-adjusted durations meets or exceeds `p × totalDuration`, and
sets `accumulatedDuration` to the sum of the adjusted durations strictly
before that event. -/
theorem C3_seekTo_spec :
    (∀ (s : AudioServiceState) (w : TimerWorld) (now p : ℚ), (p < 0 ∨ 1 < p) →
      seekTo s w now p = .error "Position must be between 0 and 1") ∧
    (∀ (s : AudioServiceState) (w : TimerWorld) (now p : ℚ),
      0 ≤ p → p ≤ 1 → s.currentTimings ≠ [] → 0 < s.currentSpeed →
      s.playbackState.totalDuration =
        calculateTotalDuration s.currentTimings s.currentSpeed →
      ∃ s2 w2, seekTo s w now p = .ok (s2, w2) ∧
        s2.playbackState.currentIndex < s.currentTimings.length ∧
        p * s.playbackState.totalDuration ≤
          takeSum (adjDurations s.currentTimings s.currentSpeed)
            (s2.playbackState.currentIndex + 1) ∧
        (∀ j, j < s2.playbackState.currentIndex →
          takeSum (adjDurations s.currentTimings s.currentSpeed) (j + 1) <
            p * s.playbackState.totalDuration) ∧
        s2.accumulatedDuration =
          takeSum (adjDurations s.currentTimings s.currentSpeed)
            s2.playbackState.currentIndex) := by
  constructor
  · intro s w now p h
    rw [seekTo, if_pos h]
  · intro s w now p h0 h1 hne hsp htot
    have hval : ¬(p < 0 ∨ 1 < p) := by
      rw [not_or]
      exact ⟨not_lt.mpr h0, not_lt.mpr h1⟩
    obtain ⟨hct, hcs, htd⟩ := pausePlayback_preserves s w now
    have hsum0 : ∀ x ∈ adjDurations s.currentTimings s.currentSpeed, 0 ≤ x := by
      intro x hx
      obtain ⟨t, _, rfl⟩ := List.mem_map.mp hx
      exact div_nonneg (Nat.cast_nonneg t.duration) (le_of_lt hsp)
    have htnn : 0 ≤ (adjDurations s.currentTimings s.currentSpeed).sum :=
      List.sum_nonneg hsum0
    have hreach : p * s.playbackState.totalDuration ≤
        0 + (adjDurations s.currentTimings s.currentSpeed).sum := by
      rw [zero_add, htot, calculateTotalDuration_eq_sum]
      calc p * (adjDurations s.currentTimings s.currentSpeed).sum ≤
          1 * (adjDurations s.currentTimings s.currentSpeed).sum :=
            mul_le_mul_of_nonneg_right h1 htnn
        _ = (adjDurations s.currentTimings s.currentSpeed).sum := one_mul _
    obtain ⟨k, hk1, hk2, hk3, hk4, hk5⟩ := seekScanGo_spec s.currentSpeed
      (p * s.playbackState.totalDuration) s.currentTimings 0 0 hne hreach
    rw [Nat.zero_add] at hk1
    rw [zero_add] at hk3 hk4
    have hk5z : ∀ j, j < k →
        takeSum (adjDurations s.currentTimings s.currentSpeed) (j + 1) <
          p * s.playbackState.totalDuration := by
      intro j hj
      have := hk5 j hj
      linarith
    rw [seekTo, if_neg hval]
    simp only [hct, hcs, htd]
    split_ifs with hwp
    · refine ⟨_, _, rfl, ?_, ?_, ?_, ?_⟩ <;>
        simp only [hk1, hk3]
      · exact hk2
      · exact hk4
      · exact hk5z
    · refine ⟨_, _, rfl, ?_, ?_, ?_, ?_⟩ <;>
        simp only [hk1, hk3]
      · exact hk2
      · exact hk4
      · exact hk5z

/-- Witness for C3: position 2 is rejected; seeking to position 1/2 in a
concrete two-event session succeeds with the specified index and elapsed
time. -/
theorem C3_seekTo_spec_witness :
    (((2 : ℚ) < 0 ∨ 1 < (2 : ℚ)) ∧
      seekTo c3SeekState initialTimerWorld 0 2 = .error "Position must be between 0 and 1") ∧
    (0 ≤ (1/2 : ℚ)) ∧ ((1/2 : ℚ) ≤ 1) ∧ c3SeekState.currentTimings ≠ [] ∧
    (0 < c3SeekState.currentSpeed) ∧
    c3SeekState.playbackState.totalDuration =
      calculateTotalDuration c3SeekState.currentTimings c3SeekState.currentSpeed ∧
    (∃ s2 w2, seekTo c3SeekState initialTimerWorld 0 (1/2) = .ok (s2, w2) ∧
      s2.playbackState.currentIndex < c3SeekState.currentTimings.length ∧
      (1/2 : ℚ) * c3SeekState.playbackState.totalDuration ≤
        takeSum (adjDurations c3SeekState.currentTimings c3SeekState.currentSpeed)
          (s2.playbackState.currentIndex + 1) ∧
      (∀ j, j < s2.playbackState.currentIndex →
        takeSum (adjDurations c3SeekState.currentTimings c3SeekState.currentSpeed) (j + 1) <
          (1/2 : ℚ) * c3SeekState.playbackState.totalDuration) ∧
      s2.accumulatedDuration =
        takeSum (adjDurations c3SeekState.currentTimings c3SeekState.currentSpeed)
          s2.playbackState.currentIndex) :=
  ⟨⟨by norm_num, C3_seekTo_spec.1 c3SeekState initialTimerWorld 0 2 (by norm_num)⟩,
   by norm_num, by norm_num, by decide,
   by norm_num [c3SeekState],
   by norm_num [c3SeekState, calculateTotalDuration],
   C3_seekTo_spec.2 c3SeekState initialTimerWorld 0 (1/2) (by norm_num) (by norm_num)
     (by decide) (by norm_num [c3SeekState])
     (by norm_num [c3SeekState, calculateTotalDuration])⟩

/-! ### WAV layout -/

theorem fillGo_length (val : ℕ → ℤ) (n : ℕ) :
    ∀ (i idx : ℕ) (buf : List ℤ), ((fillGo val n i idx buf).1).length = buf.length := by
  induction n with
  | zero => intro i idx buf; rfl
  | succ n ih =>
      intro i idx buf
      rw [fillGo]
      split_ifs with h
      · rw [ih]
        exact List.length_set buf idx (val i)
      · rfl

theorem writeTiming_length (tone : ℕ → ℤ) (speed : ℚ) (t : MorseTiming)
    (buf : List ℤ) (idx : ℕ) :
    ((writeTiming tone speed t buf idx).1).length = buf.length := by
  rw [writeTiming]
  split_ifs <;> apply fillGo_length

theorem fillSamples_length (tone : ℕ → ℤ) (speed : ℚ) (ts : List MorseTiming) :
    ∀ (buf : List ℤ) (idx : ℕ), (fillSamples tone speed ts buf idx).length = buf.length := by
  induction ts with
  | nil => intro buf idx; rfl
  | cons t rest ih =>
      intro buf idx
      rw [fillSamples, ih]
      exact writeTiming_length tone speed t buf idx

theorem toByteStream_length (samples : List ℤ) :
    (toByteStream samples).length = 2 * samples.length := by
  induction samples with
  | nil => rfl
  | cons v rest ih =>
      have h : toByteStream (v :: rest) = int16ToBytes v ++ toByteStream rest := rfl
      rw [h, List.length_append, ih]
      simp [int16ToBytes]
      omega

theorem u32le_bytes_value (m : ℕ) :
    u32Byte m 0 + 256 * u32Byte m 1 + 65536 * u32Byte m 2 + 16777216 * u32Byte m 3 =
      m % 4294967296 := by
  unfold u32Byte
  norm_num
  omega

theorem readU32le_chunkSize (n sr : ℕ) (rest : List ℕ) :
    readU32le (createWavHeader n sr ++ rest) 4 = (36 + n * 2) % 4294967296 := by
  have h : readU32le (createWavHeader n sr ++ rest) 4 =
      u32Byte (36 + n * 2) 0 + 256 * u32Byte (36 + n * 2) 1 +
        65536 * u32Byte (36 + n * 2) 2 + 16777216 * u32Byte (36 + n * 2) 3 := rfl
  rw [h, u32le_bytes_value]

theorem readU32le_subchunk2Size (n sr : ℕ) (rest : List ℕ) :
    readU32le (createWavHeader n sr ++ rest) 40 = n * 2 % 4294967296 := by
  have h : readU32le (createWavHeader n sr ++ rest) 40 =
      u32Byte (n * 2) 0 + 256 * u32Byte (n * 2) 1 +
        65536 * u32Byte (n * 2) 2 + 16777216 * u32Byte (n * 2) 3 := rfl
  rw [h, u32le_bytes_value]

theorem readU32le_sampleRate (n sr : ℕ) (rest : List ℕ) :
    readU32le (createWavHeader n sr ++ rest) 24 = sr % 4294967296 := by
  have h : readU32le (createWavHeader n sr ++ rest) 24 =
      u32Byte sr 0 + 256 * u32Byte sr 1 + 65536 * u32Byte sr 2 + 16777216 * u32Byte sr 3 := rfl
  rw [h, u32le_bytes_value]

theorem readU16le_numChannels (n sr : ℕ) (rest : List ℕ) :
    readU16le (createWavHeader n sr ++ rest) 22 = 1 := rfl

theorem readU16le_bitsPerSample (n sr : ℕ) (rest : List ℕ) :
    readU16le (createWavHeader n sr ++ rest) 34 = 16 := rfl

theorem createWavHeader_length (n sr : ℕ) : (createWavHeader n sr).length = 44 := rfl

/-- C9: every WAV produced by `generateAudioFile` has byte length
`44 + totalSamples * 2`, its first 44 bytes are the canonical PCM header
(mono, 16-bit, 44100 Hz), its `ChunkSize` field at offset 4 is
`36 + dataSize` and its `Subchunk2Size` field at offset 40 is
`dataSize = totalSamples * 2` (exactly, whenever those values fit a 32-bit
field, which `DataView.setUint32` truncates to). -/
theorem C9_generateAudioFile_wav_layout (tone : ℕ → ℤ) (timings : List MorseTiming)
    (speed : ℚ) (hne : timings ≠ []) (h1 : 1/2 ≤ speed) (h2 : speed ≤ 2) :
    ∃ wav, generateAudioFile tone timings speed = .ok wav ∧
      wav.length = 44 + totalSamplesOf timings speed * 2 ∧
      wav.take 44 = createWavHeader (totalSamplesOf timings speed) 44100 ∧
      readU32le wav 4 = (36 + totalSamplesOf timings speed * 2) % 4294967296 ∧
      readU32le wav 40 = totalSamplesOf timings speed * 2 % 4294967296 ∧
      (36 + totalSamplesOf timings speed * 2 < 4294967296 →
        readU32le wav 4 = 36 + totalSamplesOf timings speed * 2 ∧
        readU32le wav 40 = totalSamplesOf timings speed * 2) ∧
      readU16le wav 22 = 1 ∧
      readU32le wav 24 = 44100 ∧
      readU16le wav 34 = 16 := by
  have hlen : ¬timings.length = 0 := by simpa [List.length_eq_zero] using hne
  have hsp : ¬(speed < 1/2 ∨ 2 < speed) := by
    rw [not_or]
    exact ⟨not_lt.mpr h1, not_lt.mpr h2⟩
  rw [generateAudioFile, if_neg hlen, if_neg hsp]
  refine ⟨_, rfl, ?_, ?_, ?_, ?_, ?_, ?_, ?_, ?_⟩
  · rw [List.length_append, createWavHeader_length, toByteStream_length,
      fillSamples_length, List.length_replicate]
    omega
  · have h44 : (44 : ℕ) = (createWavHeader (totalSamplesOf timings speed) 44100).length :=
      rfl
    rw [h44, List.take_left]
  · exact readU32le_chunkSize _ _ _
  · exact readU32le_subchunk2Size _ _ _
  · intro hfit
    constructor
    · rw [readU32le_chunkSize _ 44100 _]
      exact Nat.mod_eq_of_lt hfit
    · rw [readU32le_subchunk2Size _ 44100 _]
      exact Nat.mod_eq_of_lt (by omega)
  · exact readU16le_numChannels _ _ _
  · rw [readU32le_sampleRate _ 44100 _]
  · exact readU16le_bitsPerSample _ _ _

/-- Witness for C9: a one-dit sequence at speed 1. -/
theorem C9_generateAudioFile_wav_layout_witness :
    ([{ type := .dit, duration := 120 }] : List MorseTiming) ≠ [] ∧
    ((1/2 : ℚ) ≤ 1) ∧ ((1 : ℚ) ≤ 2) ∧
    ∃ wav, generateAudioFile (fun _ => 0) [{ type := .dit, duration := 120 }] 1 = .ok wav ∧
      wav.length = 44 + totalSamplesOf [{ type := .dit, duration := 120 }] 1 * 2 ∧
      wav.take 44 =
        createWavHeader (totalSamplesOf [{ type := .dit, duration := 120 }] 1) 44100 ∧
      readU32le wav 4 =
        (36 + totalSamplesOf [{ type := .dit, duration := 120 }] 1 * 2) % 4294967296 ∧
      readU32le wav 40 = totalSamplesOf [{ type := .dit, duration := 120 }] 1 * 2 % 4294967296 ∧
      (36 + totalSamplesOf [{ type := .dit, duration := 120 }] 1 * 2 < 4294967296 →
        readU32le wav 4 = 36 + totalSamplesOf [{ type := .dit, duration := 120 }] 1 * 2 ∧
        readU32le wav 40 = totalSamplesOf [{ type := .dit, duration := 120 }] 1 * 2) ∧
      readU16le wav 22 = 1 ∧
      readU32le wav 24 = 44100 ∧
      readU16le wav 34 = 16 :=
  ⟨by decide, by norm_num, by norm_num,
   C9_generateAudioFile_wav_layout (fun _ => 0) [{ type := .dit, duration := 120 }] 1
     (by decide) (by norm_num) (by norm_num)⟩

/-! ### The compiler on Symbol-Mapper-format strings -/

theorem emitStep_symbol (u : ℕ) (c : Char) (prev next : Option Char)
    (hc : isSymbolChar c = true) :
    emitStep u c prev next =
      (if c = '.' then ({ type := .dit, duration := u } : MorseTiming)
       else { type := .dah, duration := u * 3 }) ::
        (if nextNeedsSymbolGap next then [{ type := .symbolGap, duration := u }] else []) := by
  simp only [isSymbolChar, Bool.or_eq_true, decide_eq_true_eq] at hc
  rcases hc with h | h <;> subst h <;> rfl

theorem nextNeedsSymbolGap_of_symbol (c : Char) (hc : isSymbolChar c = true) :
    nextNeedsSymbolGap (some c) = true := by
  simp only [isSymbolChar, Bool.or_eq_true, decide_eq_true_eq] at hc
  rcases hc with h | h <;> subst h <;> decide

theorem emitStep_space_before_slash (u : ℕ) (prev : Option Char) :
    emitStep u ' ' prev (some '/') = [] := rfl

theorem emitStep_space_after_slash (u : ℕ) (next : Option Char)
    (h : ¬next = some '/') :
    emitStep u ' ' (some '/') next = [] := by
  simp [emitStep, h]

theorem emitStep_space_letterGap (u : ℕ) (prev next : Option Char)
    (h1 : ¬next = some '/') (h2 : ¬prev = some '/') :
    emitStep u ' ' prev next = [{ type := .letterGap, duration := u * 3 }] := by
  simp [emitStep, h1, h2]

theorem emitStep_slash (u : ℕ) (prev next : Option Char) :
    emitStep u '/' prev next = [{ type := .wordGap, duration := u * 7 }] := rfl

theorem isSymbolChar_ne_space_slash (c : Char) (h : isSymbolChar c = true) :
    c ≠ ' ' ∧ c ≠ '/' := by
  simp only [isSymbolChar, Bool.or_eq_true, decide_eq_true_eq] at h
  rcases h with h | h <;> subst h <;> exact ⟨by decide, by decide⟩

theorem wfLetter_head (c : Char) (l : List Char) (h : wfLetter (c :: l) = true) :
    isSymbolChar c = true := by
  simp [wfLetter] at h
  exact h.1

theorem wfLetter_tail (c c2 : Char) (l : List Char) (h : wfLetter (c :: c2 :: l) = true) :
    wfLetter (c2 :: l) = true := by
  simp [wfLetter] at h ⊢
  exact ⟨h.2.1, h.2.2⟩

theorem wfWord_head (l : List Char) (w : List (List Char))
    (h : wfWord (l :: w) = true) : wfLetter l = true := by
  simp [wfWord] at h
  exact h.1

theorem wfWord_tail (l l2 : List Char) (w : List (List Char))
    (h : wfWord (l :: l2 :: w) = true) : wfWord (l2 :: w) = true := by
  simp [wfWord] at h ⊢
  exact ⟨h.2.1, h.2.2⟩

theorem wfMessage_head (w : List (List Char)) (ws : List (List (List Char)))
    (h : wfMessage (w :: ws) = true) : wfWord w = true := by
  simp [wfMessage] at h
  exact h.1

theorem wfMessage_tail (w : List (List Char)) (ws : List (List (List Char)))
    (h : wfMessage (w :: ws) = true) : wfMessage ws = true := by
  simp [wfMessage] at h ⊢
  exact h.2

theorem renderWord_head (w : List (List Char)) (hw : wfWord w = true) :
    ∃ d r, renderWord w = d :: r ∧ isSymbolChar d = true := by
  cases w with
  | nil => simp [wfWord] at hw
  | cons l ls =>
      have hl := wfWord_head l ls hw
      cases l with
      | nil => simp [wfLetter] at hl
      | cons c l2 =>
          have hc := wfLetter_head c l2 hl
          cases ls with
          | nil => exact ⟨c, l2, rfl, hc⟩
          | cons l3 ls2 =>
              refine ⟨c, l2 ++ ' ' :: renderWord (l3 :: ls2), ?_, hc⟩
              rw [renderWord]
              rfl

theorem renderMessage_head (w : List (List Char)) (ws : List (List (List Char)))
    (hm : wfMessage (w :: ws) = true) :
    ∃ d r, renderMessage (w :: ws) = d :: r ∧ isSymbolChar d = true := by
  obtain ⟨d, r, hr, hd⟩ := renderWord_head w (wfMessage_head w ws hm)
  cases ws with
  | nil => exact ⟨d, r, by rw [renderMessage, hr], hd⟩
  | cons w2 ws2 =>
      refine ⟨d, r ++ ' ' :: '/' :: ' ' :: renderMessage (w2 :: ws2), ?_, hd⟩
      rw [renderMessage, hr]
      rfl

theorem morseToTimingAux_cons (u : ℕ) (prev : Option Char) (c : Char) (rest : List Char) :
    morseToTimingAux u prev (c :: rest) =
      emitStep u c prev rest.head? ++ morseToTimingAux u (some c) rest := rfl

theorem compileLetter_single (u : ℕ) (c : Char) :
    compileLetter u [c] =
      [if c = '.' then { type := .dit, duration := u }
       else { type := .dah, duration := u * 3 }] := rfl

theorem compileLetter_cons (u : ℕ) (c c2 : Char) (l : List Char) :
    compileLetter u (c :: c2 :: l) =
      (if c = '.' then { type := .dit, duration := u }
       else { type := .dah, duration := u * 3 }) ::
      { type := .symbolGap, duration := u } :: compileLetter u (c2 :: l) := rfl

theorem compileWord_single (u : ℕ) (l : List Char) :
    compileWord u [l] = compileLetter u l := rfl

theorem compileWord_cons (u : ℕ) (l l2 : List Char) (ls : List (List Char)) :
    compileWord u (l :: l2 :: ls) =
      compileLetter u l ++
        { type := .letterGap, duration := u * 3 } :: compileWord u (l2 :: ls) := rfl

theorem compileMessage_single (u : ℕ) (w : List (List Char)) :
    compileMessage u [w] = compileWord u w := rfl

theorem compileMessage_cons (u : ℕ) (w w2 : List (List Char))
    (ws : List (List (List Char))) :
    compileMessage u (w :: w2 :: ws) =
      compileWord u w ++
        { type := .wordGap, duration := u * 7 } :: compileMessage u (w2 :: ws) := rfl

theorem renderWord_single (l : List Char) : renderWord [l] = l := rfl

theorem renderWord_cons (l l2 : List Char) (ls : List (List Char)) :
    renderWord (l :: l2 :: ls) = l ++ ' ' :: renderWord (l2 :: ls) := rfl

theorem renderMessage_single (w : List (List Char)) : renderMessage [w] = renderWord w := rfl

theorem renderMessage_cons (w w2 : List (List Char)) (ws : List (List (List Char))) :
    renderMessage (w :: w2 :: ws) =
      renderWord w ++ ' ' :: '/' :: ' ' :: renderMessage (w2 :: ws) := rfl

theorem morseToTimingAux_letter (u : ℕ) (l : List Char) :
    ∀ (prev : Option Char) (rest : List Char), wfLetter l = true →
      nextNeedsSymbolGap rest.head? = false →
      ∃ c, isSymbolChar c = true ∧
        morseToTimingAux u prev (l ++ rest) =
          compileLetter u l ++ morseToTimingAux u (some c) rest := by
  induction l with
  | nil => intro prev rest hl _; simp [wfLetter] at hl
  | cons c tail ih =>
      intro prev rest hl hrest
      have hc := wfLetter_head c tail hl
      cases tail with
      | nil =>
          refine ⟨c, hc, ?_⟩
          rw [List.singleton_append, morseToTimingAux_cons,
            emitStep_symbol u c prev rest.head? hc, hrest, compileLetter_single]
          simp
      | cons c2 l2 =>
          have htl := wfLetter_tail c c2 l2 hl
          have hc2 := wfLetter_head c2 l2 htl
          obtain ⟨cE, hcE, hE⟩ := ih (some c) rest htl hrest
          refine ⟨cE, hcE, ?_⟩
          rw [show ((c :: c2 :: l2) ++ rest) = c :: ((c2 :: l2) ++ rest) from rfl,
            morseToTimingAux_cons,
            show ((c2 :: l2) ++ rest).head? = some c2 from rfl,
            emitStep_symbol u c prev (some c2) hc,
            nextNeedsSymbolGap_of_symbol c2 hc2, if_pos rfl, hE, compileLetter_cons]
          simp

theorem morseToTimingAux_word (u : ℕ) (w : List (List Char)) :
    ∀ (prev : Option Char) (rest : List Char), wfWord w = true →
      nextNeedsSymbolGap rest.head? = false →
      ∃ c, isSymbolChar c = true ∧
        morseToTimingAux u prev (renderWord w ++ rest) =
          compileWord u w ++ morseToTimingAux u (some c) rest := by
  induction w with
  | nil => intro prev rest hw _; simp [wfWord] at hw
  | cons l ls ih =>
      intro prev rest hw hrest
      have hl := wfWord_head l ls hw
      cases ls with
      | nil =>
          rw [renderWord_single, compileWord_single]
          exact morseToTimingAux_letter u l prev rest hl hrest
      | cons l2 ls2 =>
          have htl := wfWord_tail l l2 ls2 hw
          obtain ⟨d, r, hdr, hd⟩ := renderWord_head (l2 :: ls2) htl
          obtain ⟨c1, hc1, h1⟩ := morseToTimingAux_letter u l prev
            (' ' :: (renderWord (l2 :: ls2) ++ rest)) hl (by rfl)
          obtain ⟨cE, hcE, hE⟩ := ih (some ' ') rest htl hrest
          refine ⟨cE, hcE, ?_⟩
          have hdne : ¬(some d = some '/') := by
            intro heq
            exact (isSymbolChar_ne_space_slash d hd).2 (Option.some.inj heq)
          have hcne : ¬(some c1 = some '/') := by
            intro heq
            exact (isSymbolChar_ne_space_slash c1 hc1).2 (Option.some.inj heq)
          rw [renderWord_cons, List.append_assoc, List.cons_append, h1,
            morseToTimingAux_cons]
          rw [hdr] at hE ⊢
          rw [List.cons_append] at hE ⊢
          rw [List.head?_cons,
            emitStep_space_letterGap u (some c1) (some d) hdne hcne, hE,
            compileWord_cons]
          simp

theorem morseToTimingAux_message (u : ℕ) (ws : List (List (List Char))) :
    ∀ prev, wfMessage ws = true →
      morseToTimingAux u prev (renderMessage ws) = compileMessage u ws := by
  induction ws with
  | nil => intro prev _; rfl
  | cons w ws2 ih =>
      intro prev hm
      have hw := wfMessage_head w ws2 hm
      cases ws2 with
      | nil =>
          rw [renderMessage_single, compileMessage_single]
          obtain ⟨c, hc, h⟩ := morseToTimingAux_word u w prev [] hw (by decide)
          rw [List.append_nil] at h
          rw [show morseToTimingAux u (some c) [] = [] from rfl, List.append_nil] at h
          exact h
      | cons w2 ws3 =>
          have htl := wfMessage_tail w (w2 :: ws3) hm
          obtain ⟨d, r, hdr, hd⟩ := renderMessage_head w2 ws3 htl
          obtain ⟨c1, hc1, h1⟩ := morseToTimingAux_word u w prev
            (' ' :: '/' :: ' ' :: renderMessage (w2 :: ws3)) hw (by rfl)
          have hdne : ¬(some d = some '/') := by
            intro heq
            exact (isSymbolChar_ne_space_slash d hd).2 (Option.some.inj heq)
          have ih2 := ih (some ' ') htl
          rw [hdr] at ih2
          rw [renderMessage_cons, h1, morseToTimingAux_cons, List.head?_cons,
            emitStep_space_before_slash, List.nil_append, morseToTimingAux_cons,
            List.head?_cons, emitStep_slash, morseToTimingAux_cons, hdr,
            List.head?_cons, emitStep_space_after_slash u (some d) hdne,
            List.nil_append, ih2, compileMessage_cons]
          simp

theorem timingOfMessage_eq_compile (ws : List (List (List Char))) (u : ℕ)
    (hm : wfMessage ws = true) :
    timingOfMessage ws u = compileMessage u ws := by
  cases ws with
  | nil => rfl
  | cons w ws2 =>
      obtain ⟨d, r, hdr, hd⟩ := renderMessage_head w ws2 hm
      have hdw : d.isWhitespace = false := by
        simp only [isSymbolChar, Bool.or_eq_true, decide_eq_true_eq] at hd
        rcases hd with h | h <;> subst h <;> decide
      have hg : (renderMessage (w :: ws2)).all Char.isWhitespace = false := by
        rw [hdr, List.all_cons, hdw, Bool.false_and]
      have hstring : (String.mk (renderMessage (w :: ws2))).data =
          renderMessage (w :: ws2) := rfl
      rw [timingOfMessage, morseToTiming, hstring, morseToTimingL, hg]
      simp only [Bool.false_eq_true, if_false]
      exact morseToTimingAux_message u (w :: ws2) none hm

theorem altFrom_cons (b : Bool) (t : MorseTiming) (rest : List MorseTiming) :
    altFrom b (t :: rest) = (t.isSignal == b && altFrom (!b) rest) := rfl

theorem altFrom_append (xs ys : List MorseTiming) :
    ∀ b, altFrom b (xs ++ ys) =
      (altFrom b xs && altFrom (if xs.length % 2 = 0 then b else !b) ys) := by
  induction xs with
  | nil => intro b; simp [altFrom]
  | cons t xs2 ih =>
      intro b
      rw [List.cons_append, altFrom_cons, ih (!b), altFrom_cons, Bool.and_assoc]
      have hcond : (if xs2.length % 2 = 0 then !b else !!b) =
          (if (t :: xs2).length % 2 = 0 then b else !b) := by
        rw [List.length_cons]
        rcases Nat.mod_two_eq_zero_or_one xs2.length with h | h
        · rw [if_pos h, if_neg (by omega)]
        · rw [if_neg (by omega), if_pos (by omega), Bool.not_not]
      rw [hcond]

theorem altFrom_glue (xs ys : List MorseTiming) (g : MorseTiming)
    (hg : g.isSignal = false)
    (hxa : altFrom true xs = true) (hxl : xs.length % 2 = 1)
    (hya : altFrom true ys = true) (hyl : ys.length % 2 = 1) :
    altFrom true (xs ++ g :: ys) = true ∧ (xs ++ g :: ys).length % 2 = 1 := by
  constructor
  · rw [altFrom_append, hxa, if_neg (by omega), altFrom_cons, hg]
    simp [hya]
  · rw [List.length_append, List.length_cons]
    omega

theorem altFrom_compileLetter (u : ℕ) (l : List Char) :
    wfLetter l = true →
      altFrom true (compileLetter u l) = true ∧ (compileLetter u l).length % 2 = 1 := by
  induction l with
  | nil => intro hl; simp [wfLetter] at hl
  | cons c tail ih =>
      intro hl
      cases tail with
      | nil =>
          refine ⟨?_, rfl⟩
          rw [compileLetter_single, altFrom_cons]
          split_ifs <;> rfl
      | cons c2 l2 =>
          obtain ⟨ha, hlen⟩ := ih (wfLetter_tail c c2 l2 hl)
          constructor
          · rw [compileLetter_cons, altFrom_cons, altFrom_cons]
            simp only [Bool.not_true, Bool.not_false, ha]
            split_ifs <;> rfl
          · rw [compileLetter_cons, List.length_cons, List.length_cons]
            omega

theorem altFrom_compileWord (u : ℕ) (w : List (List Char)) :
    wfWord w = true →
      altFrom true (compileWord u w) = true ∧ (compileWord u w).length % 2 = 1 := by
  induction w with
  | nil => intro hw; simp [wfWord] at hw
  | cons l ls ih =>
      intro hw
      have hl := wfWord_head l ls hw
      cases ls with
      | nil =>
          rw [compileWord_single]
          exact altFrom_compileLetter u l hl
      | cons l2 ls2 =>
          obtain ⟨ha, hlen⟩ := altFrom_compileLetter u l hl
          obtain ⟨hwa, hwl⟩ := ih (wfWord_tail l l2 ls2 hw)
          rw [compileWord_cons]
          exact altFrom_glue _ _ _ rfl ha hlen hwa hwl

theorem altFrom_compileMessage_ne (u : ℕ) (w : List (List Char))
    (ws : List (List (List Char))) :
    wfMessage (w :: ws) = true →
      altFrom true (compileMessage u (w :: ws)) = true ∧
        (compileMessage u (w :: ws)).length % 2 = 1 := by
  induction ws generalizing w with
  | nil =>
      intro hm
      rw [compileMessage_single]
      exact altFrom_compileWord u w (wfMessage_head _ _ hm)
  | cons w2 ws2 ih =>
      intro hm
      obtain ⟨ha, hl⟩ := altFrom_compileWord u w (wfMessage_head _ _ hm)
      obtain ⟨hma, hml⟩ := ih w2 (wfMessage_tail _ _ hm)
      rw [compileMessage_cons]
      exact altFrom_glue _ _ _ rfl ha hl hma hml

theorem altFrom_getD (out : List MorseTiming) :
    ∀ (b : Bool), altFrom b out = true →
      ∀ (i : ℕ) (d : MorseTiming), i < out.length →
        (out.getD i d).isSignal = (if i % 2 = 0 then b else !b) := by
  induction out with
  | nil => intro b _ i d hi; simp at hi
  | cons t rest ih =>
      intro b hb i d hi
      rw [altFrom_cons] at hb
      rw [Bool.and_eq_true] at hb
      obtain ⟨h1, h2⟩ := hb
      cases i with
      | zero =>
          rw [List.getD_cons_zero, if_pos (by omega)]
          exact beq_iff_eq.mp h1
      | succ i2 =>
          rw [List.getD_cons_succ]
          have hrec := ih (!b) h2 i2 d (by simpa using hi)
          rw [hrec]
          rcases Nat.mod_two_eq_zero_or_one i2 with h | h
          · rw [if_pos h, if_neg (by omega)]
          · rw [if_neg (by omega), if_pos (by omega), Bool.not_not]

/-- C2: for every morse string in the Symbol Mapper output format (words of
non-empty letters over `'.'`/`'-'`, letters joined by single spaces, words by
`' / '`), the sequence `morseToTiming` returns never contains two adjacent
gap events, and between any two consecutive signal-on events (no signal-on
event strictly between them) there is exactly one event — a gap event. -/
theorem C2_single_gap_between_signals (u : ℕ) (ws : List (List (List Char)))
    (hwf : wfMessage ws = true) (d : MorseTiming) :
    (∀ i, i + 1 < (timingOfMessage ws u).length →
      ¬(((timingOfMessage ws u).getD i d).isGap = true ∧
        ((timingOfMessage ws u).getD (i + 1) d).isGap = true)) ∧
    (∀ i j, i < j → j < (timingOfMessage ws u).length →
      ((timingOfMessage ws u).getD i d).isSignal = true →
      ((timingOfMessage ws u).getD j d).isSignal = true →
      (∀ k, i < k → k < j → ((timingOfMessage ws u).getD k d).isSignal = false) →
      j = i + 2 ∧ ((timingOfMessage ws u).getD (i + 1) d).isGap = true) := by
  have halt : altFrom true (timingOfMessage ws u) = true := by
    rw [timingOfMessage_eq_compile ws u hwf]
    cases ws with
    | nil => rfl
    | cons w ws2 => exact (altFrom_compileMessage_ne u w ws2 hwf).1
  have hchar : ∀ i, i < (timingOfMessage ws u).length →
      ((timingOfMessage ws u).getD i d).isSignal = (if i % 2 = 0 then true else false) := by
    intro i hi
    have h := altFrom_getD (timingOfMessage ws u) true halt i d hi
    simpa using h
  have hpar : ∀ i, i < (timingOfMessage ws u).length →
      ((timingOfMessage ws u).getD i d).isSignal = true → i % 2 = 0 := by
    intro i hi hs
    by_contra hp
    rw [hchar i hi, if_neg hp] at hs
    exact Bool.false_ne_true hs
  have hparg : ∀ i, i < (timingOfMessage ws u).length →
      ((timingOfMessage ws u).getD i d).isGap = true → ¬(i % 2 = 0) := by
    intro i hi hg hp
    rw [isGap_eq_not_isSignal, hchar i hi, if_pos hp] at hg
    exact Bool.false_ne_true hg
  constructor
  · rintro i hlt ⟨hg1, hg2⟩
    have h1 := hparg i (by omega) hg1
    have h2 := hparg (i + 1) hlt hg2
    omega
  · intro i j hij hj hsi hsj hbet
    have hi : i < (timingOfMessage ws u).length := by omega
    have hpi := hpar i hi hsi
    have hpj := hpar j hj hsj
    have hge : i + 2 ≤ j := by omega
    have hjeq : j = i + 2 := by
      by_contra hne
      have hk : i + 2 < j := by omega
      have hklt : i + 2 < (timingOfMessage ws u).length := by omega
      have hbk := hbet (i + 2) (by omega) hk
      rw [hchar (i + 2) hklt, if_pos (by omega)] at hbk
      exact absurd hbk (by simp)
    refine ⟨hjeq, ?_⟩
    have hmid : i + 1 < (timingOfMessage ws u).length := by omega
    rw [isGap_eq_not_isSignal, hchar (i + 1) hmid, if_neg (by omega)]
    rfl

/-- Witness for C2: the rendered message `".. - / ."`. -/
theorem C2_single_gap_between_signals_witness :
    wfMessage [[['.', '.'], ['-']], [['.']]] = true ∧
    ((∀ i, i + 1 < (timingOfMessage [[['.', '.'], ['-']], [['.']]] 100).length →
      ¬(((timingOfMessage [[['.', '.'], ['-']], [['.']]] 100).getD i
          { type := .dit, duration := 0 }).isGap = true ∧
        ((timingOfMessage [[['.', '.'], ['-']], [['.']]] 100).getD (i + 1)
          { type := .dit, duration := 0 }).isGap = true)) ∧
    (∀ i j, i < j → j < (timingOfMessage [[['.', '.'], ['-']], [['.']]] 100).length →
      ((timingOfMessage [[['.', '.'], ['-']], [['.']]] 100).getD i
        { type := .dit, duration := 0 }).isSignal = true →
      ((timingOfMessage [[['.', '.'], ['-']], [['.']]] 100).getD j
        { type := .dit, duration := 0 }).isSignal = true →
      (∀ k, i < k → k < j → ((timingOfMessage [[['.', '.'], ['-']], [['.']]] 100).getD k
        { type := .dit, duration := 0 }).isSignal = false) →
      j = i + 2 ∧ ((timingOfMessage [[['.', '.'], ['-']], [['.']]] 100).getD (i + 1)
        { type := .dit, duration := 0 }).isGap = true)) :=
  ⟨by decide,
   C2_single_gap_between_signals 100 [[['.', '.'], ['-']], [['.']]] (by decide)
     { type := .dit, duration := 0 }⟩
